import Mathlib

/-!
# GoodData writer resource of the Keboola Terraform provider

A shallow embedding of `resource_keboola_gooddata_writer.go` and the properties of its
creation workflow: the derivation of the writer identifier from the resource name, the
submission of the creation job, the polling loop and the registration of the configuration.

Conventions of the embedding.

* A Go string is read as the sequence of runes the `regexp` and `strings` packages iterate
  over (an invalid byte is the rune U+FFFD, which is outside `[A-Za-z0-9]`).  The rune
  sequence is a `List Char`; `String` wraps it.
* The remote side is a value of `KbcClient`: what each call answers.  The answers are
  arbitrary, so every theorem quantified over the client covers every behaviour of the
  back end.  The calls themselves are recorded, in order, in a trace of `Event`s.
* One variable, `createWriterStatusRes`, receives the answer to the job submission and
  then every status answer.  Decoding a body into it overwrites the fields whose key the
  body carries and keeps the others, so a body is modelled by the keys it carries
  (`JobFields`) and decoding by `decodeInto`.
* The `for` loop has no bound in the source.  The embedding runs it for at most `fuel`
  iterations and reports `Ret.polling` when the loop has not been left by then.
-/

namespace Keboola

/-! ## Go library functions the resource calls -/

/-- The two library functions whose full definition lies outside the repository and on
whose values no property below depends: the Unicode case table behind `strings.ToLower`
for runes outside ASCII, and `url.Parse` followed by the selection of `.Path`. -/
structure GoLib where
  unicodeToLower : Char → Char
  urlParsePath : String → Except String String

/-- Membership in the character class `A-Za-z0-9`. -/
def isAlnum (c : Char) : Bool :=
  ('A' ≤ c && c ≤ 'Z') || ('a' ≤ c && c ≤ 'z') || ('0' ≤ c && c ≤ '9')

/-- The negated class `[^A-Za-z0-9]` of the pattern compiled in Create. -/
def inClass (c : Char) : Bool := !isAlnum c

/-- The scan behind `reg.ReplaceAllString(name, "-")` for the pattern `[^A-Za-z0-9]+`: matches
are found left to right, `+` is greedy, so a match is a maximal run of class characters and
is replaced by one `-`; every other character is copied.  `inMatch` tells that the
character before belongs to a match whose `-` has been written already. -/
def replaceAllAux : Bool → List Char → List Char
  | _, [] => []
  | inMatch, c :: cs =>
    if inClass c then
      if inMatch then replaceAllAux true cs else '-' :: replaceAllAux true cs
    else c :: replaceAllAux false cs

/-- The call `reg.ReplaceAllString(src, "-")` with `reg` the pattern `[^A-Za-z0-9]+`. -/
def replaceAllString (src : List Char) : List Char := replaceAllAux false src

/-- The call `strings.TrimLeft(s, cutset)` for a cutset of one character. -/
def trimLeft (s : List Char) (cut : Char) : List Char := s.dropWhile (· == cut)

/-- The call `strings.TrimRight(s, cutset)` for a cutset of one character. -/
def trimRight (s : List Char) (cut : Char) : List Char := s.rdropWhile (· == cut)

/-- The call `strings.Trim(s, cutset)` for a cutset of one ASCII character: the right end is
trimmed, then the left end. -/
def trim (s : List Char) (cut : Char) : List Char := trimLeft (trimRight s cut) cut

/-- What `strings.ToLower` does to one rune: an ASCII capital is moved by `'a' - 'A'`, any
other ASCII rune is kept, a rune outside ASCII goes through the Unicode table. -/
def toLowerRune (lib : GoLib) (c : Char) : Char :=
  if c.toNat < 128 then
    if 'A' ≤ c ∧ c ≤ 'Z' then Char.ofNat (c.toNat + 32) else c
  else lib.unicodeToLower c

/-- The call `strings.ToLower(s)`. -/
def toLower (lib : GoLib) (s : List Char) : List Char := s.map (toLowerRune lib)

/-- Lines 57 to 63 of Create on runes: `generatedID` computed from `name`. -/
def generatedIDChars (lib : GoLib) (name : List Char) : List Char :=
  toLower lib (trim (replaceAllString name) '-')

/-- Lines 57 to 63 of Create: `generatedID` computed from `name`.  The pattern is a
constant that compiles, so the error branch of `regexp.Compile` is never taken. -/
def generatedID (lib : GoLib) (name : String) : String :=
  String.mk (generatedIDChars lib name.data)

/-! ## Reference definition of the identifier -/

/-- The maximal runs of characters of `A-Za-z0-9` in a name, in order: the name is cut at
every character outside the class and the empty pieces are dropped. -/
def alnumRuns (name : List Char) : List (List Char) :=
  (name.splitOnP inClass).filter (fun r => !r.isEmpty)

/-- The identifier as the specification words it: the maximal alphanumeric runs of the
name, each lowercased, joined by a single `-`. -/
def referenceID (lib : GoLib) (name : List Char) : List Char :=
  List.intercalate ['-'] ((alnumRuns name).map (toLower lib))

/-- Membership in `a-z0-9`. -/
def isLowerAlnum (c : Char) : Bool :=
  ('a' ≤ c && c ≤ 'z') || ('0' ≤ c && c ≤ '9')

/-- No two neighbouring characters are both `-`. -/
def NoDoubleDash (s : List Char) : Prop :=
  List.Chain' (fun a b => ¬ (a = '-' ∧ b = '-')) s

instance (s : List Char) : Decidable (NoDoubleDash s) := by
  unfold NoDoubleDash
  infer_instance

/-- The dash `ReplaceAllString` writes for a match at the very start of the name. -/
def leadDash : List Char → List Char
  | [] => []
  | c :: _ => if inClass c then ['-'] else []

/-! ## Data of the resource -/

/-- The Go struct `CreateGoodDataProject`, the JSON body of the job submission. -/
structure CreateGoodDataProject where
  WriterID : String
  Description : String
  AuthToken : String
deriving DecidableEq, Repr

/-- Modelled from the spec: the type `StorageJobStatus` is declared in a file of the
repository that is not at hand.  The job state carries at least a status and a url; these
are the two fields Create reads. -/
structure StorageJobStatus where
  URL : String
  Status : String
deriving DecidableEq, Repr

/-- The keys of a JSON body that `Decode` reads for a `StorageJobStatus`: for each field
its value in the body, or `none` when the key is absent or null. -/
structure JobFields where
  URL : Option String
  Status : Option String
deriving DecidableEq, Repr

/-- The call `Decode(&createWriterStatusRes)` on a body that decodes: a key of the body
overwrites its field, a field whose key is absent or null keeps the value it has. -/
def decodeInto (target : StorageJobStatus) (fields : JobFields) : StorageJobStatus :=
  { URL := fields.URL.getD target.URL, Status := fields.Status.getD target.Status }

/-- Modelled from the spec: the type `CreateResourceResult` is declared in a file of the
repository that is not at hand.  The registration answer carries at least the assigned
identifier, a string. -/
structure CreateResourceResult where
  ID : String
deriving DecidableEq, Repr

/-- The part of `schema.ResourceData` Create touches: the three attributes of the schema
and the resource ID. -/
structure ResourceData where
  name : String
  description : String
  authToken : String
  id : String
deriving DecidableEq, Repr

/-- A Go `error` value that is not nil, by origin. -/
inductive GoError
  | transport (msg : String)
  | remote (payload : String)
  | decode (msg : String)
  | urlParse (msg : String)
deriving DecidableEq, Repr

/-- An HTTP response as Create uses it: the status code, what `json.NewDecoder(Body).Decode`
finds when the body is decoded for a target of type `α` (the decoding error, or the
content of the body: the keys it carries for the job state, the value a fresh target holds
afterwards for the registration), and the error payload of the body. -/
structure Response (α : Type) where
  statusCode : Nat
  decoded : Except String α
  errorPayload : String

/-- The pair `(resp, err)` a client call returns: either `err` is not nil, or it is nil and
there is a response. -/
inductive CallResult (α : Type)
  | failure (err : String)
  | response (resp : Response α)

/-- The remote side seen through `KbcClient`: the answer to the job submission, the answer
to the status fetch number `i` (counted from 0), and the answer to the registration. -/
structure KbcClient where
  PostToSyrup : CallResult JobFields
  GetFromSyrup : Nat → CallResult JobFields
  PostToStorage : CallResult CreateResourceResult

/-- What Create does that is visible outside, in order. -/
inductive Event
  | postToSyrup (endpoint : String) (body : CreateGoodDataProject)
  | getFromSyrup (path : String)
  | sleep (milliseconds : Nat)
  | postToStorage (endpoint : String) (form : List (String × String))
  | setId (id : String)
deriving DecidableEq, Repr

/-- How a run of Create ends: it returns an error value (`none` is nil), or the loop is
still polling after the iterations granted. -/
inductive Ret
  | polling
  | returned (err : Option GoError)
deriving DecidableEq, Repr

/-- A run of Create: how it ends, the calls it made, the resource data it leaves. -/
structure Run where
  ret : Ret
  trace : List Event
  d : ResourceData
deriving DecidableEq, Repr

/-- Modelled from the spec: the helper `hasErrors(err, resp)` is defined in a file of the
repository that is not at hand.  It holds for a transport error and for a response whose
HTTP status is not a success status. -/
def hasErrors {α : Type} : CallResult α → Bool
  | .failure _ => true
  | .response resp => !(200 ≤ resp.statusCode && resp.statusCode ≤ 299)

/-- Modelled from the spec: the helper `extractError(err, resp)` is defined in a file of the
repository that is not at hand.  It surfaces the transport error, or else the error payload
of a response whose status is not a success status. -/
def extractError {α : Type} : CallResult α → Option GoError
  | .failure err => some (.transport err)
  | .response resp =>
    if 200 ≤ resp.statusCode && resp.statusCode ≤ 299 then none
    else some (.remote resp.errorPayload)

/-- How the polling loop is left. -/
inductive LoopExit
  | polling
  | failed (err : Option GoError)
  | left (createWriterStatus : String) (createWriterStatusRes : StorageJobStatus)
deriving DecidableEq, Repr

/-- Lines 101 to 117 of Create: the polling loop, run for at most `fuel` iterations, with
`i` the number of status fetches issued before.  Every body is decoded into the one
variable `createWriterStatusRes`.  It returns how the loop is left and the events of the
loop. -/
def pollLoop (client : KbcClient) (path : String) :
    Nat → Nat → String → StorageJobStatus → LoopExit × List Event
  | fuel, i, createWriterStatus, createWriterStatusRes =>
    if createWriterStatus ≠ "success" ∧ createWriterStatus ≠ "error" then
      match fuel with
      | 0 => (.polling, [])
      | fuel + 1 =>
        if hasErrors (client.GetFromSyrup i) then
          (.failed (extractError (client.GetFromSyrup i)), [.getFromSyrup path])
        else
          match client.GetFromSyrup i with
          -- not reached: `hasErrors` holds for a call whose `err` is not nil
          | .failure err => (.failed (some (.transport err)), [.getFromSyrup path])
          | .response jobStatusResp =>
            match jobStatusResp.decoded with
            | .error err => (.failed (some (.decode err)), [.getFromSyrup path])
            | .ok fields =>
              let res := decodeInto createWriterStatusRes fields
              let rest := pollLoop client path fuel (i + 1) res.Status res
              (rest.1, .getFromSyrup path :: .sleep 250 :: rest.2)
    else (.left createWriterStatus createWriterStatusRes, [])

/-- The job submission of Create, line 79. -/
def submitEvent (lib : GoLib) (d : ResourceData) : Event :=
  .postToSyrup "gooddata-writer/v2"
    { WriterID := generatedID lib d.name, Description := d.description,
      AuthToken := d.authToken }

/-- The registration of Create, lines 119 to 126: the fields added to the form, in the
order of the `form.Add` calls. -/
def registerEvent (lib : GoLib) (d : ResourceData) : Event :=
  .postToStorage "v2/storage/components/gooddata-writer/configs"
    [("name", d.name), ("description", d.description),
     ("configurationId", generatedID lib d.name)]

/-- Lines 119 to 147 of Create: what follows the loop.  `before` holds the events so far. -/
def registerConfig (lib : GoLib) (client : KbcClient) (d : ResourceData)
    (before : List Event) : Run :=
  let called := before ++ [registerEvent lib d]
  match client.PostToStorage with
  | .failure err => ⟨.returned (some (.transport err)), called, d⟩
  | .response createWriterConfigResp =>
    if hasErrors (CallResult.response createWriterConfigResp) then
      ⟨.returned (extractError (CallResult.response createWriterConfigResp)), called, d⟩
    else
      match createWriterConfigResp.decoded with
      | .error err => ⟨.returned (some (.decode err)), called, d⟩
      | .ok createRes =>
        -- d.SetId(string(createRes.ID)), then Read, which returns nil
        ⟨.returned none, called ++ [.setId createRes.ID], { d with id := createRes.ID }⟩

/-- The value of `var createWriterStatusRes StorageJobStatus` at line 86, before anything
is decoded into it. -/
def zeroJob : StorageJobStatus := { URL := "", Status := "" }

/-- The function `resourceKeboolaGoodDataWriterCreate`.  `json.Marshal` of a struct of three
strings does not fail, so that error branch is left out. -/
def resourceKeboolaGoodDataWriterCreate (lib : GoLib) (client : KbcClient) (fuel : Nat)
    (d : ResourceData) : Run :=
  let submitted := [submitEvent lib d]
  if hasErrors client.PostToSyrup then
    ⟨.returned (extractError client.PostToSyrup), submitted, d⟩
  else
    match client.PostToSyrup with
    -- not reached: `hasErrors` holds for a call whose `err` is not nil
    | .failure err => ⟨.returned (some (.transport err)), submitted, d⟩
    | .response createWriterResp =>
      match createWriterResp.decoded with
      | .error err => ⟨.returned (some (.decode err)), submitted, d⟩
      | .ok fields =>
        let createWriterStatusRes := decodeInto zeroJob fields
        match lib.urlParsePath createWriterStatusRes.URL with
        | .error err => ⟨.returned (some (.urlParse err)), submitted, d⟩
        | .ok jobURLPath =>
          let path := String.mk (trimLeft jobURLPath.data '/')
          match pollLoop client path fuel 0 "waiting" createWriterStatusRes with
          | (.polling, events) => ⟨.polling, submitted ++ events, d⟩
          | (.failed err, events) => ⟨.returned err, submitted ++ events, d⟩
          | (.left _ _, events) => registerConfig lib client d (submitted ++ events)

/-! ## Vocabulary of the statements -/

/-- The value of `createWriterStatusRes` after the first `i` status fetches of a run in
which they have no error and decode; `job` is its value when the loop is entered. -/
def jobAfter (client : KbcClient) (job : StorageJobStatus) : Nat → StorageJobStatus
  | 0 => job
  | i + 1 =>
    match client.GetFromSyrup i with
    | .failure _ => jobAfter client job i
    | .response resp =>
      match resp.decoded with
      | .error _ => jobAfter client job i
      | .ok fields => decodeInto (jobAfter client job i) fields

/-- The status that status fetch number `i` decodes to, that is the status held by
`createWriterStatusRes` after the body is decoded into it: defined when the fetch has no
error and its body decodes. -/
def decodedStatus (client : KbcClient) (job : StorageJobStatus) (i : Nat) : Option String :=
  match client.GetFromSyrup i with
  | .failure _ => none
  | .response resp =>
    if hasErrors (CallResult.response resp) then none
    else match resp.decoded with
      | .error _ => none
      | .ok fields => some (decodeInto (jobAfter client job i) fields).Status

/-- The job submission succeeds: the call has no error, its body decodes, leaving `job` in
`createWriterStatusRes`, and the url of `job` parses to a path that, trimmed of leading
slashes, is `path`. -/
def Submitted (lib : GoLib) (client : KbcClient) (job : StorageJobStatus) (path : String) :
    Prop :=
  ∃ resp fields pathRaw, client.PostToSyrup = .response resp ∧
    hasErrors (CallResult.response resp) = false ∧ resp.decoded = .ok fields ∧
    job = decodeInto zeroJob fields ∧
    lib.urlParsePath job.URL = .ok pathRaw ∧ path = String.mk (trimLeft pathRaw.data '/')

/-- In a run that enters the loop with `job`, the status fetches number `start` to
`start + n - 1` succeed and decode, each to a status that is neither `success` nor
`error`. -/
def PollsWait (client : KbcClient) (job : StorageJobStatus) (start n : Nat) : Prop :=
  ∀ j, j < n → ∃ s, decodedStatus client job (start + j) = some s ∧
    s ≠ "success" ∧ s ≠ "error"

/-- The body of a call carries the key `status`, when the call gives a body that
decodes. -/
def carriesStatus (r : CallResult JobFields) : Bool :=
  match r with
  | .failure _ => true
  | .response resp =>
    match resp.decoded with
    | .error _ => true
    | .ok fields => fields.Status.isSome

/-- The registration call fails: a transport error, a response whose status is not a
success status, or a body that does not decode. -/
def RegistrationFails (client : KbcClient) : Prop :=
  hasErrors client.PostToStorage = true ∨
    ∃ resp msg, client.PostToStorage = .response resp ∧ resp.decoded = .error msg

/-- The events of `k` rounds of the loop: a status fetch, then a sleep of 250 ms. -/
def pollRounds (path : String) (k : Nat) : List Event :=
  (List.replicate k [Event.getFromSyrup path, Event.sleep 250]).flatten

/-- A library for the examples: no rune outside ASCII is changed and every url has the
path `/queue/job/7`. -/
def exampleLib : GoLib :=
  { unicodeToLower := id, urlParsePath := fun _ => .ok "/queue/job/7" }

/-- A response with status 200 whose body decodes to `v`. -/
def okResponse {α : Type} (v : α) : CallResult α :=
  .response { statusCode := 200, decoded := .ok v, errorPayload := "" }

/-- A body with the url of the example job and the status `status`. -/
def jobBody (status : String) : JobFields :=
  { URL := some "https://syrup.keboola.com/queue/job/7", Status := some status }

/-- A back end that accepts the job with the status `accepted`, whose status fetches
answer the statuses listed in `statuses`, in order, and `waiting` ever after, and whose
registration assigns the identifier `id`. -/
def exampleClient (accepted : String) (statuses : List String) (id : String) : KbcClient :=
  { PostToSyrup := okResponse (jobBody accepted)
    GetFromSyrup := fun i => okResponse (jobBody (statuses.getD i "waiting"))
    PostToStorage := okResponse { ID := id } }

/-- A back end that accepts the job, answers the first status fetch with `waiting` and
fails the second one in transport. -/
def brokenPollClient : KbcClient :=
  { exampleClient "waiting" ["waiting"] "12345" with
    GetFromSyrup := fun i =>
      if i = 0 then okResponse (jobBody "waiting") else .failure "connection reset" }

/-- A back end whose job succeeds at the first status fetch and whose registration call
fails in transport. -/
def brokenRegistrationClient : KbcClient :=
  { exampleClient "waiting" ["success"] "12345" with
    PostToStorage := .failure "connection reset" }

/-- A back end that accepts the job with the status `accepted`, answers the first two
status fetches with a body that carries no key, fails the third one in transport, and whose
registration assigns the identifier `12345`. -/
def silentClient (accepted : String) : KbcClient :=
  { PostToSyrup := okResponse (jobBody accepted)
    GetFromSyrup := fun i =>
      if i < 2 then okResponse { URL := none, Status := none }
      else .failure "connection reset"
    PostToStorage := okResponse { ID := "12345" } }

/-- The request of the examples. -/
def exampleData : ResourceData :=
  { name := "Sales Data", description := "x", authToken := "t", id := "" }

/-! ## Characters -/

theorem char_le_iff (a b : Char) : a ≤ b ↔ a.toNat ≤ b.toNat := by
  show a.val ≤ b.val ↔ _
  rw [UInt32.le_def]
  rfl

theorem isAlnum_iff (c : Char) : isAlnum c = true ↔
    (65 ≤ c.toNat ∧ c.toNat ≤ 90) ∨ (97 ≤ c.toNat ∧ c.toNat ≤ 122) ∨
      (48 ≤ c.toNat ∧ c.toNat ≤ 57) := by
  simp [isAlnum, char_le_iff, or_assoc]

theorem isLowerAlnum_iff (c : Char) : isLowerAlnum c = true ↔
    (97 ≤ c.toNat ∧ c.toNat ≤ 122) ∨ (48 ≤ c.toNat ∧ c.toNat ≤ 57) := by
  simp [isLowerAlnum, char_le_iff]

theorem toNat_ofNat_small (n : Nat) (h : n < 55296) : (Char.ofNat n).toNat = n := by
  have hv : n.isValidChar := Or.inl h
  unfold Char.ofNat
  rw [dif_pos hv]
  rfl

theorem isAlnum_of_isLowerAlnum {c : Char} (h : isLowerAlnum c = true) : isAlnum c = true := by
  rw [isLowerAlnum_iff] at h
  rw [isAlnum_iff]
  exact Or.inr h

theorem ne_dash_of_isAlnum {c : Char} (h : isAlnum c = true) : c ≠ '-' := by
  rintro rfl
  revert h
  decide

theorem inClass_eq_false {c : Char} (h : isAlnum c = true) : inClass c = false := by
  simp [inClass, h]

theorem toLowerRune_dash (lib : GoLib) : toLowerRune lib '-' = '-' := rfl

theorem isLowerAlnum_toLowerRune (lib : GoLib) {c : Char} (h : isAlnum c = true) :
    isLowerAlnum (toLowerRune lib c) = true := by
  rw [isAlnum_iff] at h
  have hlt : c.toNat < 128 := by omega
  unfold toLowerRune
  rw [if_pos hlt]
  by_cases hu : 'A' ≤ c ∧ c ≤ 'Z'
  · rw [if_pos hu, isLowerAlnum_iff]
    have h1 : 65 ≤ c.toNat ∧ c.toNat ≤ 90 := by
      simpa [char_le_iff] using hu
    rw [toNat_ofNat_small _ (by omega)]
    omega
  · rw [if_neg hu, isLowerAlnum_iff]
    have h1 : ¬ (65 ≤ c.toNat ∧ c.toNat ≤ 90) := by
      simpa [char_le_iff] using hu
    omega

theorem toLowerRune_fixed (lib : GoLib) {c : Char} (h : isLowerAlnum c = true ∨ c = '-') :
    toLowerRune lib c = c := by
  rcases h with h | rfl
  · rw [isLowerAlnum_iff] at h
    have hlt : c.toNat < 128 := by omega
    have hu : ¬ ('A' ≤ c ∧ c ≤ 'Z') := by
      have h1 : ¬ (65 ≤ c.toNat ∧ c.toNat ≤ 90) := by omega
      simpa [char_le_iff] using h1
    unfold toLowerRune
    rw [if_pos hlt, if_neg hu]
  · rfl

/-! ## Runs of alphanumeric characters -/

theorem alnumRuns_nil : alnumRuns [] = [] := rfl

theorem alnumRuns_cons_class {x : Char} (xs : List Char) (hx : inClass x = true) :
    alnumRuns (x :: xs) = alnumRuns xs := by
  simp [alnumRuns, List.splitOnP_cons, hx]

theorem alnumRuns_single {x : Char} (hx : inClass x = false) : alnumRuns [x] = [[x]] := by
  simp [alnumRuns, List.splitOnP_cons, hx]

theorem alnumRuns_cons_gap {x y : Char} (ys : List Char) (hx : inClass x = false)
    (hy : inClass y = true) : alnumRuns (x :: y :: ys) = [x] :: alnumRuns (y :: ys) := by
  simp [alnumRuns, List.splitOnP_cons, hx, hy]

theorem alnumRuns_cons_run {x y : Char} (ys : List Char) (hx : inClass x = false)
    (hy : inClass y = false) :
    ∃ r rs, alnumRuns (y :: ys) = r :: rs ∧ alnumRuns (x :: y :: ys) = (x :: r) :: rs := by
  obtain ⟨h, t, hS⟩ : ∃ h t, List.splitOnP inClass ys = h :: t := by
    cases hS : List.splitOnP inClass ys with
    | nil => exact absurd hS (List.splitOnP_ne_nil _ _)
    | cons h t => exact ⟨h, t, rfl⟩
  refine ⟨y :: h, t.filter (fun r => !r.isEmpty), ?_, ?_⟩ <;>
    simp [alnumRuns, List.splitOnP_cons, hx, hy, hS]

/-- Every run is non-empty and alphanumeric. -/
theorem alnumRuns_mem (l : List Char) :
    ∀ r ∈ alnumRuns l, r ≠ [] ∧ ∀ c ∈ r, isAlnum c = true := by
  induction l with
  | nil => simp [alnumRuns_nil]
  | cons x xs ih =>
    by_cases hx : inClass x = true
    · rw [alnumRuns_cons_class xs hx]; exact ih
    · have hx0 : inClass x = false := by simpa using hx
      have hxa : isAlnum x = true := by simpa [inClass] using hx0
      cases xs with
      | nil =>
        rw [alnumRuns_single hx0]
        intro r hr
        simp only [List.mem_singleton] at hr
        subst hr
        simp [hxa]
      | cons y ys =>
        by_cases hy : inClass y = true
        · rw [alnumRuns_cons_gap ys hx0 hy]
          intro r hr
          rcases List.mem_cons.1 hr with rfl | hr
          · simp [hxa]
          · exact ih r hr
        · have hy0 : inClass y = false := by simpa using hy
          obtain ⟨r0, rs, h1, h2⟩ := alnumRuns_cons_run ys hx0 hy0
          rw [h2]
          rw [h1] at ih
          intro r hr
          rcases List.mem_cons.1 hr with rfl | hr
          · refine ⟨by simp, ?_⟩
            intro c hc
            rcases List.mem_cons.1 hc with rfl | hc
            · exact hxa
            · exact (ih r0 (List.mem_cons_self _ _)).2 c hc
          · exact ih r (List.mem_cons_of_mem _ hr)

/-- There is a run exactly when the name has an alphanumeric character. -/
theorem alnumRuns_ne_nil_iff (l : List Char) :
    alnumRuns l ≠ [] ↔ ∃ c ∈ l, isAlnum c = true := by
  induction l with
  | nil => simp [alnumRuns_nil]
  | cons x xs ih =>
    by_cases hx : inClass x = true
    · rw [alnumRuns_cons_class xs hx, ih]
      have hxa : isAlnum x = false := by simpa [inClass] using hx
      simp [hxa]
    · have hx0 : inClass x = false := by simpa using hx
      have hxa : isAlnum x = true := by simpa [inClass] using hx0
      have hne : alnumRuns (x :: xs) ≠ [] := by
        cases xs with
        | nil => rw [alnumRuns_single hx0]; simp
        | cons y ys =>
          by_cases hy : inClass y = true
          · rw [alnumRuns_cons_gap ys hx0 hy]; simp
          · have hy0 : inClass y = false := by simpa using hy
            obtain ⟨r0, rs, _, h2⟩ := alnumRuns_cons_run ys hx0 hy0
            rw [h2]; simp
      exact ⟨fun _ => ⟨x, List.mem_cons_self _ _, hxa⟩, fun _ => hne⟩

/-! ## Joining runs with a dash -/

theorem intercalate_nil_runs (sep : List Char) : List.intercalate sep [] = [] := rfl

theorem intercalate_single (sep r : List Char) : List.intercalate sep [r] = r := by
  simp [List.intercalate]

theorem intercalate_cons_cons (sep r r2 : List Char) (rs : List (List Char)) :
    List.intercalate sep (r :: r2 :: rs) = r ++ sep ++ List.intercalate sep (r2 :: rs) := by
  simp [List.intercalate]

theorem noDoubleDash_of_no_dash (r : List Char) (h : ∀ c ∈ r, c ≠ '-') : NoDoubleDash r := by
  unfold NoDoubleDash
  induction r with
  | nil => exact List.chain'_nil
  | cons a as ih =>
    rw [List.chain'_cons']
    refine ⟨?_, ih (fun c hc => h c (List.mem_cons_of_mem _ hc))⟩
    intro b _ hab
    exact h a (List.mem_cons_self _ _) hab.1

/-- The shape of runs joined by a dash, for runs that are non-empty and made of
characters of a class `q` without the dash. -/
theorem intercalate_shape (q : Char → Bool) (hq : ∀ c, q c = true → c ≠ '-')
    (L : List (List Char)) (hL : ∀ r ∈ L, r ≠ [] ∧ ∀ c ∈ r, q c = true) :
    (∀ c ∈ List.intercalate ['-'] L, q c = true ∨ c = '-') ∧
      NoDoubleDash (List.intercalate ['-'] L) ∧
      (∀ c, (List.intercalate ['-'] L).head? = some c → q c = true) ∧
      (∀ c, (List.intercalate ['-'] L).getLast? = some c → q c = true) ∧
      (L ≠ [] → List.intercalate ['-'] L ≠ []) := by
  induction L with
  | nil =>
    simp [intercalate_nil_runs, NoDoubleDash]
  | cons r rs ih =>
    have hr := hL r (List.mem_cons_self _ _)
    obtain ⟨a, as, rfl⟩ : ∃ a as, r = a :: as := List.exists_cons_of_ne_nil hr.1
    have hrq : ∀ c ∈ a :: as, q c = true := hr.2
    have hrd : NoDoubleDash (a :: as) :=
      noDoubleDash_of_no_dash _ (fun c hc => hq c (hrq c hc))
    cases rs with
    | nil =>
      rw [intercalate_single]
      refine ⟨fun c hc => Or.inl (hrq c hc), hrd, ?_, ?_, by simp⟩
      · intro c hc
        simp only [List.head?_cons, Option.some.injEq] at hc
        exact hrq c (hc ▸ List.mem_cons_self _ _)
      · intro c hc
        exact hrq c (List.mem_of_getLast?_eq_some hc)
    | cons r2 rs2 =>
      have ih2 := ih (fun r hr => hL r (List.mem_cons_of_mem _ hr))
      obtain ⟨i1, i2, i3, i4, i5⟩ := ih2
      rw [intercalate_cons_cons]
      have hne : List.intercalate ['-'] (r2 :: rs2) ≠ [] := i5 (by simp)
      refine ⟨?_, ?_, ?_, ?_, by simp⟩
      · intro c hc
        simp only [List.mem_append, List.mem_singleton] at hc
        rcases hc with (hc | hc) | hc
        · exact Or.inl (hrq c hc)
        · exact Or.inr hc
        · exact i1 c hc
      · unfold NoDoubleDash at *
        rw [List.append_assoc]
        refine List.Chain'.append hrd ?_ ?_
        · rw [List.singleton_append, List.chain'_cons']
          refine ⟨?_, i2⟩
          intro b hb hab
          exact hq b (i3 b hb) hab.2
        · intro x hx y _ hxy
          exact hq x (hrq x (List.mem_of_mem_getLast? hx)) hxy.1
      · intro c hc
        simp only [List.cons_append, List.head?_cons, Option.some.injEq] at hc
        exact hrq c (hc ▸ List.mem_cons_self _ _)
      · intro c hc
        rw [List.getLast?_append_of_ne_nil _ hne] at hc
        exact i4 c hc

/-! ## The replacement scan in terms of the runs -/

theorem intercalate_cons_head (x : Char) (r : List Char) (rs : List (List Char)) :
    List.intercalate ['-'] ((x :: r) :: rs) = x :: List.intercalate ['-'] (r :: rs) := by
  cases rs with
  | nil => simp [intercalate_single]
  | cons r2 rs2 => simp [intercalate_cons_cons]

/-- The output of the scan is the runs joined by dashes, with one dash in front when the
name starts outside the class and possibly one dash behind. -/
theorem replaceAllAux_shape (l : List Char) :
    ∃ post, (post = [] ∨ post = ['-']) ∧ (alnumRuns l = [] → post = []) ∧
      replaceAllAux true l = List.intercalate ['-'] (alnumRuns l) ++ post ∧
      replaceAllAux false l =
        leadDash l ++ (List.intercalate ['-'] (alnumRuns l) ++ post) := by
  induction l with
  | nil =>
    exact ⟨[], Or.inl rfl, fun _ => rfl, rfl, rfl⟩
  | cons x xs ih =>
    obtain ⟨post, hp, hnil, hT, hF⟩ := ih
    by_cases hx : inClass x = true
    · refine ⟨post, hp, ?_, ?_, ?_⟩
      · rw [alnumRuns_cons_class xs hx]; exact hnil
      · rw [alnumRuns_cons_class xs hx, ← hT]
        simp [replaceAllAux, hx]
      · rw [alnumRuns_cons_class xs hx, ← hT]
        simp [replaceAllAux, hx, leadDash]
    · have hx0 : inClass x = false := by simpa using hx
      have hstep : ∀ b, replaceAllAux b (x :: xs) = x :: replaceAllAux false xs := by
        intro b
        simp [replaceAllAux, hx0]
      have hlead : leadDash (x :: xs) = [] := by simp [leadDash, hx0]
      cases xs with
      | nil =>
        refine ⟨[], Or.inl rfl, fun _ => rfl, ?_, ?_⟩
        · rw [hstep, alnumRuns_single hx0, intercalate_single]
          simp [replaceAllAux]
        · rw [hstep, hlead, alnumRuns_single hx0, intercalate_single]
          simp [replaceAllAux]
      | cons y ys =>
        by_cases hy : inClass y = true
        · have hl2 : leadDash (y :: ys) = ['-'] := by simp [leadDash, hy]
          rw [hl2] at hF
          cases hR : alnumRuns (y :: ys) with
          | nil =>
            have hpost : post = [] := hnil hR
            subst hpost
            rw [hR] at hF
            refine ⟨['-'], Or.inr rfl, ?_, ?_, ?_⟩
            · rw [alnumRuns_cons_gap ys hx0 hy]; simp
            · rw [hstep, hF, alnumRuns_cons_gap ys hx0 hy, hR, intercalate_single]
              simp [intercalate_nil_runs]
            · rw [hstep, hlead, hF, alnumRuns_cons_gap ys hx0 hy, hR, intercalate_single]
              simp [intercalate_nil_runs]
          | cons r2 rs2 =>
            rw [hR] at hF
            refine ⟨post, hp, ?_, ?_, ?_⟩
            · rw [alnumRuns_cons_gap ys hx0 hy]; simp
            · rw [hstep, hF, alnumRuns_cons_gap ys hx0 hy, hR, intercalate_cons_cons]
              simp
            · rw [hstep, hlead, hF, alnumRuns_cons_gap ys hx0 hy, hR, intercalate_cons_cons]
              simp
        · have hy0 : inClass y = false := by simpa using hy
          have hl2 : leadDash (y :: ys) = [] := by simp [leadDash, hy0]
          obtain ⟨r0, rs, h1, h2⟩ := alnumRuns_cons_run ys hx0 hy0
          rw [hl2, h1] at hF
          refine ⟨post, hp, ?_, ?_, ?_⟩
          · rw [h2]; simp
          · rw [hstep, hF, h2, intercalate_cons_head]
            simp
          · rw [hstep, hlead, hF, h2, intercalate_cons_head]
            simp

/-- Trimming what the scan gives leaves the runs joined by dashes. -/
theorem trim_replaceAllString (name : List Char) :
    trim (replaceAllString name) '-' = List.intercalate ['-'] (alnumRuns name) := by
  obtain ⟨post, hp, hnil, _, hF⟩ := replaceAllAux_shape name
  have hshape := intercalate_shape isAlnum (fun c hc => ne_dash_of_isAlnum hc)
    (alnumRuns name) (alnumRuns_mem name)
  obtain ⟨_, _, hhead, hlast, hne⟩ := hshape
  have hlead : leadDash name = [] ∨ leadDash name = ['-'] := by
    cases name with
    | nil => exact Or.inl rfl
    | cons c cs =>
      by_cases hc : inClass c = true
      · right; simp [leadDash, hc]
      · left; simp [leadDash, hc]
  unfold replaceAllString
  rw [hF]
  cases hR : alnumRuns name with
  | nil =>
    have hpost : post = [] := hnil hR
    subst hpost
    rw [intercalate_nil_runs]
    rcases hlead with h | h <;> rw [h] <;> rfl
  | cons r rs =>
    rw [← hR]
    have hI : List.intercalate ['-'] (alnumRuns name) ≠ [] := hne (by rw [hR]; simp)
    have hright : trimRight (leadDash name ++
        (List.intercalate ['-'] (alnumRuns name) ++ post)) '-' =
        leadDash name ++ List.intercalate ['-'] (alnumRuns name) := by
      have hkeep : List.rdropWhile (· == '-')
          (leadDash name ++ List.intercalate ['-'] (alnumRuns name)) =
          leadDash name ++ List.intercalate ['-'] (alnumRuns name) := by
        rw [List.rdropWhile_eq_self_iff]
        intro hl
        have hg : (leadDash name ++ List.intercalate ['-'] (alnumRuns name)).getLast? =
            some ((leadDash name ++ List.intercalate ['-'] (alnumRuns name)).getLast hl) :=
          List.getLast?_eq_getLast _ hl
        rw [List.getLast?_append_of_ne_nil _ hI] at hg
        have := ne_dash_of_isAlnum (hlast _ hg)
        simpa using this
      unfold trimRight
      rcases hp with h | h
      · rw [h, List.append_nil]; exact hkeep
      · rw [h, ← List.append_assoc, List.rdropWhile_concat_pos _ _ _ (by simp)]
        exact hkeep
    have hleft : trimLeft (leadDash name ++ List.intercalate ['-'] (alnumRuns name)) '-' =
        List.intercalate ['-'] (alnumRuns name) := by
      obtain ⟨a, as, hIa⟩ := List.exists_cons_of_ne_nil hI
      have ha : a ≠ '-' := ne_dash_of_isAlnum (hhead a (by rw [hIa]; rfl))
      unfold trimLeft
      rw [hIa]
      have hb : (a == '-') = false := by simpa using ha
      rcases hlead with h | h <;> rw [h] <;> simp [List.dropWhile_cons, hb]
    unfold trim
    rw [hright, hleft]

/-! ## The identifier -/

theorem map_intercalate_dash (f : Char → Char) (hf : f '-' = '-') (L : List (List Char)) :
    (List.intercalate ['-'] L).map f = List.intercalate ['-'] (L.map (List.map f)) := by
  induction L with
  | nil => rfl
  | cons r rs ih =>
    cases rs with
    | nil => simp [intercalate_single]
    | cons r2 rs2 =>
      rw [List.map_cons, List.map_cons, intercalate_cons_cons, intercalate_cons_cons,
        List.map_append, List.map_append, ih]
      simp [hf]

/-- The identifier computed by Create is the reference identifier. -/
theorem generatedIDChars_eq_referenceID (lib : GoLib) (name : List Char) :
    generatedIDChars lib name = referenceID lib name := by
  unfold generatedIDChars referenceID toLower
  rw [trim_replaceAllString, map_intercalate_dash _ (toLowerRune_dash lib)]

theorem lowered_runs_mem (lib : GoLib) (name : List Char) :
    ∀ r ∈ (alnumRuns name).map (toLower lib), r ≠ [] ∧ ∀ c ∈ r, isLowerAlnum c = true := by
  intro r hr
  obtain ⟨r0, hr0, rfl⟩ := List.mem_map.1 hr
  have h0 := alnumRuns_mem name r0 hr0
  refine ⟨?_, ?_⟩
  · intro h
    exact h0.1 (List.map_eq_nil_iff.1 h)
  · intro c hc
    obtain ⟨c0, hc0, rfl⟩ := List.mem_map.1 hc
    exact isLowerAlnum_toLowerRune lib (h0.2 c0 hc0)

theorem ne_dash_of_isLowerAlnum {c : Char} (h : isLowerAlnum c = true) : c ≠ '-' :=
  ne_dash_of_isAlnum (isAlnum_of_isLowerAlnum h)

/-- The shape of the identifier, for every name. -/
theorem generatedIDChars_shape (lib : GoLib) (name : List Char) :
    (∀ c ∈ generatedIDChars lib name, isLowerAlnum c = true ∨ c = '-') ∧
      NoDoubleDash (generatedIDChars lib name) ∧
      (generatedIDChars lib name).head? ≠ some '-' ∧
      (generatedIDChars lib name).getLast? ≠ some '-' ∧
      (generatedIDChars lib name ≠ [] ↔ ∃ c ∈ name, isAlnum c = true) := by
  rw [generatedIDChars_eq_referenceID]
  unfold referenceID
  obtain ⟨h1, h2, h3, h4, h5⟩ := intercalate_shape isLowerAlnum
    (fun c hc => ne_dash_of_isLowerAlnum hc) _ (lowered_runs_mem lib name)
  refine ⟨h1, h2, ?_, ?_, ?_⟩
  · intro h
    exact ne_dash_of_isLowerAlnum (h3 _ h) rfl
  · intro h
    exact ne_dash_of_isLowerAlnum (h4 _ h) rfl
  · rw [← alnumRuns_ne_nil_iff]
    constructor
    · intro h hR
      apply h
      rw [hR]
      rfl
    · intro h
      apply h5
      intro hm
      exact h (List.map_eq_nil_iff.1 hm)

/-- The scan copies a string of lowercase alphanumerics and single dashes. -/
theorem replaceAllAux_fixed (s : List Char) :
    ∀ b : Bool, (∀ c ∈ s, isLowerAlnum c = true ∨ c = '-') → NoDoubleDash s →
      (b = true → s.head? ≠ some '-') → replaceAllAux b s = s := by
  induction s with
  | nil => intro b _ _ _; rfl
  | cons c cs ih =>
    intro b hc hd hb
    unfold NoDoubleDash at hd
    rw [List.chain'_cons'] at hd
    have hcs : ∀ c ∈ cs, isLowerAlnum c = true ∨ c = '-' :=
      fun c h => hc c (List.mem_cons_of_mem _ h)
    rcases hc c (List.mem_cons_self _ _) with h | rfl
    · have h0 : inClass c = false := inClass_eq_false (isAlnum_of_isLowerAlnum h)
      simp only [replaceAllAux, h0, Bool.false_eq_true, if_false]
      rw [ih false hcs hd.2 (by simp)]
    · have hbf : b = false := by
        cases b with
        | false => rfl
        | true => exact absurd rfl (hb rfl)
      subst hbf
      have h0 : inClass '-' = true := rfl
      simp only [replaceAllAux, h0, if_true, Bool.false_eq_true, if_false]
      rw [ih true hcs hd.2]
      intro _ hh
      exact hd.1 _ hh ⟨rfl, rfl⟩

/-- A string of lowercase alphanumerics and single inner dashes is its own identifier. -/
theorem generatedIDChars_fixed (lib : GoLib) (s : List Char)
    (hc : ∀ c ∈ s, isLowerAlnum c = true ∨ c = '-') (hd : NoDoubleDash s)
    (hh : s.head? ≠ some '-') (hl : s.getLast? ≠ some '-') :
    generatedIDChars lib s = s := by
  have h1 : replaceAllString s = s := replaceAllAux_fixed s false hc hd (by simp)
  have h2 : trimRight s '-' = s := by
    unfold trimRight
    rw [List.rdropWhile_eq_self_iff]
    intro hne hp
    apply hl
    rw [List.getLast?_eq_getLast _ hne]
    simpa using hp
  have h3 : trimLeft s '-' = s := by
    unfold trimLeft
    cases s with
    | nil => rfl
    | cons a as =>
      have ha : (a == '-') = false := by
        have : a ≠ '-' := fun h => hh (by rw [h]; rfl)
        simpa using this
      simp [List.dropWhile_cons, ha]
  have h4 : toLower lib s = s := by
    unfold toLower
    conv_rhs => rw [← List.map_id s]
    apply List.map_congr_left
    intro c hcm
    exact toLowerRune_fixed lib (hc c hcm)
  unfold generatedIDChars trim
  rw [h1, h2, h3, h4]

/-! ## The polling loop -/

theorem extractError_of_hasErrors {α : Type} (r : CallResult α) (h : hasErrors r = true) :
    ∃ e, extractError r = some e := by
  cases r with
  | failure err => exact ⟨_, rfl⟩
  | response resp =>
    simp only [hasErrors, Bool.not_eq_true'] at h
    exact ⟨.remote resp.errorPayload, by simp [extractError, h]⟩

theorem decodedStatus_eq_some {client : KbcClient} {job : StorageJobStatus} {i : Nat}
    {s : String} (h : decodedStatus client job i = some s) :
    ∃ resp fields, client.GetFromSyrup i = .response resp ∧
      hasErrors (CallResult.response resp) = false ∧ resp.decoded = .ok fields ∧
      decodeInto (jobAfter client job i) fields = jobAfter client job (i + 1) ∧
      (jobAfter client job (i + 1)).Status = s := by
  unfold decodedStatus at h
  cases hr : client.GetFromSyrup i with
  | failure err => simp [hr] at h
  | response resp =>
    rw [hr] at h
    by_cases he : hasErrors (CallResult.response resp) = true
    · simp [he] at h
    · have he0 : hasErrors (CallResult.response resp) = false := by simpa using he
      cases hd : resp.decoded with
      | error msg => simp [he0, hd] at h
      | ok fields =>
        simp only [he0, hd, Bool.false_eq_true, if_false, Option.some.injEq] at h
        have hnext : decodeInto (jobAfter client job i) fields = jobAfter client job (i + 1) := by
          simp only [jobAfter, hr, hd]
        exact ⟨resp, fields, rfl, he0, hd, hnext, by rw [← hnext]; exact h⟩

theorem decodedStatus_eq_none {client : KbcClient} {job : StorageJobStatus} {i : Nat}
    (h : decodedStatus client job i = none) :
    hasErrors (client.GetFromSyrup i) = true ∨
      ∃ resp msg, client.GetFromSyrup i = .response resp ∧
        hasErrors (CallResult.response resp) = false ∧ resp.decoded = .error msg := by
  unfold decodedStatus at h
  cases hr : client.GetFromSyrup i with
  | failure err => exact Or.inl rfl
  | response resp =>
    rw [hr] at h
    by_cases he : hasErrors (CallResult.response resp) = true
    · exact Or.inl he
    · have he0 : hasErrors (CallResult.response resp) = false := by simpa using he
      cases hd : resp.decoded with
      | error msg => exact Or.inr ⟨resp, msg, rfl, he0, hd⟩
      | ok fields => simp [he0, hd] at h

theorem pollLoop_exit (client : KbcClient) (path : String) (fuel i : Nat) (st : String)
    (job : StorageJobStatus) (h : st = "success" ∨ st = "error") :
    pollLoop client path fuel i st job = (.left st job, []) := by
  have hn : ¬ (st ≠ "success" ∧ st ≠ "error") := by
    rcases h with h | h <;> simp [h]
  cases fuel <;> simp only [pollLoop, if_neg hn]

theorem pollLoop_zero (client : KbcClient) (path : String) (i : Nat) (st : String)
    (job : StorageJobStatus) (h1 : st ≠ "success") (h2 : st ≠ "error") :
    pollLoop client path 0 i st job = (.polling, []) := by
  simp only [pollLoop, if_pos (And.intro h1 h2)]

theorem pollLoop_step (client : KbcClient) (path : String) (job : StorageJobStatus) (i : Nat)
    (st : String) (h1 : st ≠ "success") (h2 : st ≠ "error") {s : String}
    (hs : decodedStatus client job i = some s) :
    (jobAfter client job (i + 1)).Status = s ∧
      ∀ fuel, pollLoop client path (fuel + 1) i st (jobAfter client job i) =
        ((pollLoop client path fuel (i + 1) s (jobAfter client job (i + 1))).1,
          .getFromSyrup path :: .sleep 250 ::
            (pollLoop client path fuel (i + 1) s (jobAfter client job (i + 1))).2) := by
  obtain ⟨resp, fields, hr, he, hd, hnext, hst⟩ := decodedStatus_eq_some hs
  refine ⟨hst, ?_⟩
  intro fuel
  simp only [pollLoop, if_pos (And.intro h1 h2), he, hr, hd, hnext, hst, Bool.false_eq_true,
    if_false]

theorem pollLoop_step_fail (client : KbcClient) (path : String) (job : StorageJobStatus)
    (i : Nat) (st : String) (cur : StorageJobStatus) (h1 : st ≠ "success") (h2 : st ≠ "error")
    (hs : decodedStatus client job i = none) :
    ∃ e, ∀ fuel, pollLoop client path (fuel + 1) i st cur =
      (.failed (some e), [.getFromSyrup path]) := by
  rcases decodedStatus_eq_none hs with he | ⟨resp, msg, hr, he, hd⟩
  · obtain ⟨e, hx⟩ := extractError_of_hasErrors _ he
    refine ⟨e, ?_⟩
    intro fuel
    simp only [pollLoop, if_pos (And.intro h1 h2), he, hx, if_true]
  · refine ⟨.decode msg, ?_⟩
    intro fuel
    simp only [pollLoop, if_pos (And.intro h1 h2), he, hr, hd, Bool.false_eq_true, if_false]

theorem pollRounds_zero (path : String) : pollRounds path 0 = [] := rfl

theorem pollRounds_succ (path : String) (n : Nat) :
    pollRounds path (n + 1) = .getFromSyrup path :: .sleep 250 :: pollRounds path n := by
  simp [pollRounds, List.replicate_succ]

theorem pollRounds_succ_right (path : String) (n : Nat) :
    pollRounds path (n + 1) = pollRounds path n ++ [.getFromSyrup path, .sleep 250] := by
  induction n with
  | zero => rfl
  | succ n ih =>
    rw [pollRounds_succ path (n + 1)]
    conv_lhs => rw [ih]
    rw [pollRounds_succ path n]
    simp

theorem count_fetch_pollRounds (path : String) (n : Nat) :
    List.count (Event.getFromSyrup path) (pollRounds path n) = n := by
  induction n with
  | zero => rfl
  | succ n ih =>
    rw [pollRounds_succ, List.count_cons_self, List.count_cons_of_ne (by simp), ih]

theorem PollsWait.shift {client : KbcClient} {job : StorageJobStatus} {start n : Nat}
    (h : PollsWait client job start (n + 1)) : PollsWait client job (start + 1) n := by
  intro j hj
  have := h (j + 1) (by omega)
  rwa [show start + (j + 1) = start + 1 + j by omega] at this

/-- While the fetches decode to a status that is not terminal the loop goes on: after `n`
such rounds it stands at fetch `start + n` with a status that is not terminal. -/
theorem pollLoop_wait (client : KbcClient) (path : String) (job : StorageJobStatus) (n : Nat) :
    ∀ (start : Nat) (st : String), PollsWait client job start n →
      st ≠ "success" → st ≠ "error" →
      ∃ st2, st2 ≠ "success" ∧ st2 ≠ "error" ∧
        ∀ fuel, pollLoop client path (n + fuel) start st (jobAfter client job start) =
          ((pollLoop client path fuel (start + n) st2 (jobAfter client job (start + n))).1,
            pollRounds path n ++
              (pollLoop client path fuel (start + n) st2 (jobAfter client job (start + n))).2) := by
  induction n with
  | zero =>
    intro start st _ h1 h2
    refine ⟨st, h1, h2, ?_⟩
    intro fuel
    simp [pollRounds_zero]
  | succ n ih =>
    intro start st hw h1 h2
    obtain ⟨s, hs, hs1, hs2⟩ := hw 0 (by omega)
    rw [Nat.add_zero] at hs
    obtain ⟨_, hstep⟩ := pollLoop_step client path job start st h1 h2 hs
    obtain ⟨st2, h21, h22, hrest⟩ := ih (start + 1) s hw.shift hs1 hs2
    refine ⟨st2, h21, h22, ?_⟩
    intro fuel
    rw [show n + 1 + fuel = (n + fuel) + 1 by omega, hstep, hrest,
      show start + 1 + n = start + (n + 1) by omega, pollRounds_succ]
    simp

/-- The loop leaves at the first fetch that decodes to a terminal status. -/
theorem pollLoop_reach (client : KbcClient) (path : String) (job : StorageJobStatus)
    (n fuel : Nat) (final : String) (hw : PollsWait client job 0 n)
    (hlast : decodedStatus client job n = some final)
    (hfinal : final = "success" ∨ final = "error") (hfuel : n + 1 ≤ fuel) :
    ∃ res, res.Status = final ∧
      pollLoop client path fuel 0 "waiting" job = (.left final res, pollRounds path (n + 1)) := by
  obtain ⟨st2, h1, h2, hrest⟩ :=
    pollLoop_wait client path job n 0 "waiting" hw (by decide) (by decide)
  obtain ⟨f, rfl⟩ : ∃ f, fuel = n + (f + 1) := ⟨fuel - (n + 1), by omega⟩
  rw [Nat.zero_add] at hrest
  obtain ⟨hres, hstep⟩ := pollLoop_step client path job n st2 h1 h2 hlast
  refine ⟨jobAfter client job (n + 1), hres, ?_⟩
  have h0 : jobAfter client job 0 = job := rfl
  rw [h0] at hrest
  rw [hrest, hstep, pollLoop_exit client path f (n + 1) final _ hfinal, pollRounds_succ_right]

/-- The loop is left with an error at the first fetch that fails or does not decode. -/
theorem pollLoop_fail (client : KbcClient) (path : String) (job : StorageJobStatus)
    (n fuel : Nat) (hw : PollsWait client job 0 n)
    (hlast : decodedStatus client job n = none) (hfuel : n + 1 ≤ fuel) :
    ∃ e, pollLoop client path fuel 0 "waiting" job =
      (.failed (some e), pollRounds path n ++ [.getFromSyrup path]) := by
  obtain ⟨st2, h1, h2, hrest⟩ :=
    pollLoop_wait client path job n 0 "waiting" hw (by decide) (by decide)
  obtain ⟨f, rfl⟩ : ∃ f, fuel = n + (f + 1) := ⟨fuel - (n + 1), by omega⟩
  rw [Nat.zero_add] at hrest
  obtain ⟨e, hstep⟩ := pollLoop_step_fail client path job n st2 (jobAfter client job n) h1 h2 hlast
  have h0 : jobAfter client job 0 = job := rfl
  rw [h0] at hrest
  exact ⟨e, by rw [hrest, hstep]⟩

/-! ## The creation workflow -/

theorem create_of_submitted (lib : GoLib) (client : KbcClient) (fuel : Nat) (d : ResourceData)
    (job : StorageJobStatus) (path : String) (h : Submitted lib client job path) :
    resourceKeboolaGoodDataWriterCreate lib client fuel d =
      match pollLoop client path fuel 0 "waiting" job with
      | (.polling, events) => ⟨.polling, [submitEvent lib d] ++ events, d⟩
      | (.failed err, events) => ⟨.returned err, [submitEvent lib d] ++ events, d⟩
      | (.left _ _, events) => registerConfig lib client d ([submitEvent lib d] ++ events) := by
  obtain ⟨resp, fields, pathRaw, hr, he, hd, hj, hu, hp⟩ := h
  subst hp
  subst hj
  unfold resourceKeboolaGoodDataWriterCreate
  simp only [hr, he, hd, hu, Bool.false_eq_true, if_false]

/-- With the job accepted and the first terminal status met at fetch `n + 1`, Create goes
on to the registration, whatever that terminal status is. -/
theorem create_reaches_registration (lib : GoLib) (client : KbcClient) (fuel : Nat)
    (d : ResourceData) (job : StorageJobStatus) (path : String) (n : Nat) (final : String)
    (h : Submitted lib client job path) (hw : PollsWait client job 0 n)
    (hlast : decodedStatus client job n = some final)
    (hfinal : final = "success" ∨ final = "error") (hfuel : n + 1 ≤ fuel) :
    resourceKeboolaGoodDataWriterCreate lib client fuel d =
      registerConfig lib client d (submitEvent lib d :: pollRounds path (n + 1)) := by
  obtain ⟨res, _, hloop⟩ := pollLoop_reach client path job n fuel final hw hlast hfinal hfuel
  rw [create_of_submitted lib client fuel d job path h, hloop]
  rfl

theorem registerConfig_fails (lib : GoLib) (client : KbcClient) (d : ResourceData)
    (before : List Event) (h : RegistrationFails client) :
    ∃ e, registerConfig lib client d before =
      ⟨.returned (some e), before ++ [registerEvent lib d], d⟩ := by
  unfold registerConfig
  rcases h with h | ⟨resp, msg, hr, hd⟩
  · cases hc : client.PostToStorage with
    | failure err => exact ⟨.transport err, rfl⟩
    | response resp =>
      rw [hc] at h
      obtain ⟨e, he⟩ := extractError_of_hasErrors _ h
      exact ⟨e, by simp only [h, he, if_true]⟩
  · rw [hr]
    by_cases he : hasErrors (CallResult.response resp) = true
    · obtain ⟨e, hx⟩ := extractError_of_hasErrors _ he
      exact ⟨e, by simp only [he, hx, if_true]⟩
    · have he0 : hasErrors (CallResult.response resp) = false := by simpa using he
      exact ⟨.decode msg, by simp only [he0, hd, Bool.false_eq_true, if_false]⟩

theorem registerConfig_ok (lib : GoLib) (client : KbcClient) (d : ResourceData)
    (before : List Event) (resp : Response CreateResourceResult) (assigned : String)
    (hr : client.PostToStorage = .response resp)
    (he : hasErrors (CallResult.response resp) = false)
    (hd : resp.decoded = .ok { ID := assigned }) :
    registerConfig lib client d before =
      ⟨.returned none, before ++ [registerEvent lib d] ++ [.setId assigned],
        { d with id := assigned }⟩ := by
  unfold registerConfig
  simp only [hr, he, hd, Bool.false_eq_true, if_false]

theorem registerConfig_trace (lib : GoLib) (client : KbcClient) (d : ResourceData)
    (before : List Event) :
    ∃ more, (registerConfig lib client d before).trace = before ++ more := by
  unfold registerConfig
  cases client.PostToStorage with
  | failure err => exact ⟨_, rfl⟩
  | response resp =>
    by_cases he : hasErrors (CallResult.response resp) = true
    · exact ⟨[registerEvent lib d], by simp only [he, if_true]⟩
    · have he0 : hasErrors (CallResult.response resp) = false := by simpa using he
      cases hd : resp.decoded with
      | error msg =>
        exact ⟨[registerEvent lib d], by simp only [he0, hd, Bool.false_eq_true, if_false]⟩
      | ok createRes =>
        exact ⟨[registerEvent lib d] ++ [.setId createRes.ID], by
          simp only [he0, hd, Bool.false_eq_true, if_false, List.append_assoc]⟩

theorem registerConfig_congr (lib : GoLib) (c1 c2 : KbcClient) (d : ResourceData)
    (before : List Event) (h : c1.PostToStorage = c2.PostToStorage) :
    registerConfig lib c1 d before = registerConfig lib c2 d before := by
  unfold registerConfig
  rw [h]

theorem pollLoop_congr (c1 c2 : KbcClient) (path : String)
    (h : c1.GetFromSyrup = c2.GetFromSyrup) (fuel : Nat) :
    ∀ (i : Nat) (st : String) (job : StorageJobStatus),
      pollLoop c1 path fuel i st job = pollLoop c2 path fuel i st job := by
  induction fuel with
  | zero => intro i st job; simp only [pollLoop]
  | succ fuel ih =>
    intro i st job
    simp only [pollLoop, h, ih]

/-- The first event of a loop that is entered with the status `waiting` and is granted an
iteration is a status fetch. -/
theorem pollLoop_first_event (client : KbcClient) (path : String) (fuel : Nat)
    (job : StorageJobStatus) (hfuel : 1 ≤ fuel) :
    ∃ more, (pollLoop client path fuel 0 "waiting" job).2 = .getFromSyrup path :: more := by
  have hc : ("waiting" ≠ "success" ∧ "waiting" ≠ "error") := by decide
  obtain ⟨f, rfl⟩ : ∃ f, fuel = f + 1 := ⟨fuel - 1, by omega⟩
  by_cases he : hasErrors (client.GetFromSyrup 0) = true
  · exact ⟨[], by simp only [pollLoop, if_pos hc, he, if_true]⟩
  · have he0 : hasErrors (client.GetFromSyrup 0) = false := by simpa using he
    cases hr : client.GetFromSyrup 0 with
    | failure err => rw [hr] at he0; exact absurd he0 (by simp [hasErrors])
    | response resp =>
      rw [hr] at he0
      cases hd : resp.decoded with
      | error msg =>
        exact ⟨[], by simp only [pollLoop, if_pos hc, hr, he0, hd, Bool.false_eq_true,
          if_false]⟩
      | ok fields =>
        refine ⟨.sleep 250 :: (pollLoop client path f (0 + 1)
          (decodeInto job fields).Status (decodeInto job fields)).2, ?_⟩
        simp only [pollLoop, if_pos hc, hr, he0, hd, Bool.false_eq_true, if_false]

/-- When the body of the first status fetch carries the key `status`, the loop does not
depend on the status the submission left in `createWriterStatusRes`. -/
theorem pollLoop_status_overwritten (client : KbcClient) (path : String) (fuel : Nat)
    (job1 job2 : StorageJobStatus) (hurl : job1.URL = job2.URL)
    (hkey : carriesStatus (client.GetFromSyrup 0) = true) :
    pollLoop client path fuel 0 "waiting" job1 = pollLoop client path fuel 0 "waiting" job2 := by
  have hc : ("waiting" ≠ "success" ∧ "waiting" ≠ "error") := by decide
  cases fuel with
  | zero => simp only [pollLoop, if_pos hc]
  | succ f =>
    by_cases he : hasErrors (client.GetFromSyrup 0) = true
    · simp only [pollLoop, if_pos hc, he, if_true]
    · have he0 : hasErrors (client.GetFromSyrup 0) = false := by simpa using he
      cases hr : client.GetFromSyrup 0 with
      | failure err => rw [hr] at he0; exact absurd he0 (by simp [hasErrors])
      | response resp =>
        rw [hr] at he0 hkey
        cases hd : resp.decoded with
        | error msg =>
          simp only [pollLoop, if_pos hc, hr, he0, hd, Bool.false_eq_true, if_false]
        | ok fields =>
          have hs : fields.Status.isSome = true := by
            simpa only [carriesStatus, hd] using hkey
          obtain ⟨s, hsome⟩ := Option.isSome_iff_exists.1 hs
          have hsame : decodeInto job1 fields = decodeInto job2 fields := by
            simp only [decodeInto, hurl, hsome, Option.getD_some]
          simp only [pollLoop, if_pos hc, hr, he0, hd, hsame, Bool.false_eq_true, if_false]

theorem mem_pollRounds {path : String} {n : Nat} {e : Event} (h : e ∈ pollRounds path n) :
    e = .getFromSyrup path ∨ e = .sleep 250 := by
  induction n with
  | zero => simp [pollRounds_zero] at h
  | succ n ih =>
    rw [pollRounds_succ] at h
    rcases List.mem_cons.1 h with h | h
    · exact Or.inl h
    · rcases List.mem_cons.1 h with h | h
      · exact Or.inr h
      · exact ih h

/-- Whatever happens, the first event of Create is the job submission. -/
theorem create_trace_head (lib : GoLib) (client : KbcClient) (fuel : Nat) (d : ResourceData) :
    ∃ more, (resourceKeboolaGoodDataWriterCreate lib client fuel d).trace =
      submitEvent lib d :: more := by
  unfold resourceKeboolaGoodDataWriterCreate
  by_cases he : hasErrors client.PostToSyrup = true
  · exact ⟨[], by simp only [he, if_true]⟩
  · have he0 : hasErrors client.PostToSyrup = false := by simpa using he
    simp only [he0, Bool.false_eq_true, if_false]
    cases hr : client.PostToSyrup with
    | failure err => exact ⟨[], rfl⟩
    | response resp =>
      cases hd : resp.decoded with
      | error msg => exact ⟨[], by simp only [hd]⟩
      | ok fields =>
        cases hu : lib.urlParsePath (decodeInto zeroJob fields).URL with
        | error msg => exact ⟨[], by simp only [hd, hu]⟩
        | ok pathRaw =>
          simp only [hd, hu]
          rcases hp : pollLoop client (String.mk (trimLeft pathRaw.data '/')) fuel 0
            "waiting" (decodeInto zeroJob fields) with ⟨x, events⟩
          cases x with
          | polling => exact ⟨events, rfl⟩
          | failed err => exact ⟨events, rfl⟩
          | left st res =>
            obtain ⟨more, hm⟩ := registerConfig_trace lib client d ([submitEvent lib d] ++ events)
            refine ⟨events ++ more, ?_⟩
            show (registerConfig lib client d ([submitEvent lib d] ++ events)).trace = _
            rw [hm]
            simp

theorem exampleClient_submitted (accepted : String) (statuses : List String) (id : String) :
    Submitted exampleLib (exampleClient accepted statuses id)
      { URL := "https://syrup.keboola.com/queue/job/7", Status := accepted } "queue/job/7" :=
  ⟨_, jobBody accepted, "/queue/job/7", rfl, rfl, rfl, rfl, rfl, by decide⟩

/-! ## The claims -/

/-- C1, evaluated where the code departs from it: the job is accepted, the first status
fetch decodes to `error` and the registration endpoint answers normally.  Create then calls
the registration endpoint, sets the resource ID and returns nil, for every number of loop
iterations granted. -/
theorem create_registers_after_job_error (fuel : Nat) :
    resourceKeboolaGoodDataWriterCreate exampleLib (exampleClient "waiting" ["error"] "12345")
        (fuel + 1) exampleData =
      { ret := .returned none
        trace :=
          [.postToSyrup "gooddata-writer/v2"
              { WriterID := "sales-data", Description := "x", AuthToken := "t" },
            .getFromSyrup "queue/job/7", .sleep 250,
            .postToStorage "v2/storage/components/gooddata-writer/configs"
              [("name", "Sales Data"), ("description", "x"), ("configurationId", "sales-data")],
            .setId "12345"]
        d := { name := "Sales Data", description := "x", authToken := "t", id := "12345" } } := by
  rw [create_reaches_registration exampleLib _ (fuel + 1) exampleData _ "queue/job/7" 0 "error"
    (exampleClient_submitted "waiting" ["error"] "12345") (fun j hj => absurd hj (by omega))
    rfl (Or.inr rfl) (by omega)]
  rfl

/-- C2: for every name the identifier derived in Create is the reference identifier, the
maximal runs of characters of `A-Za-z0-9` of the name, each lowercased, joined by a single
dash; `My Writer!!` gives `my-writer` and `  --Foo_Bar--  ` gives `foo-bar`. -/
theorem generatedID_eq_referenceID (lib : GoLib) :
    (∀ name : String, generatedID lib name = String.mk (referenceID lib name.data)) ∧
      generatedID lib "My Writer!!" = "my-writer" ∧
      generatedID lib "  --Foo_Bar--  " = "foo-bar" := by
  refine ⟨fun name => ?_, rfl, rfl⟩
  unfold generatedID
  rw [generatedIDChars_eq_referenceID]

/-- C3: for a name with at least one character of `A-Za-z0-9` the derived identifier is not
empty, is made of characters of `a-z0-9` and dashes, has no two neighbouring dashes and
neither starts nor ends with a dash. -/
theorem generatedID_wellformed (lib : GoLib) (name : String)
    (h : ∃ c ∈ name.data, isAlnum c = true) :
    generatedID lib name ≠ "" ∧
      (∀ c ∈ (generatedID lib name).data, isLowerAlnum c = true ∨ c = '-') ∧
      NoDoubleDash (generatedID lib name).data ∧
      (generatedID lib name).data.head? ≠ some '-' ∧
      (generatedID lib name).data.getLast? ≠ some '-' := by
  obtain ⟨h1, h2, h3, h4, h5⟩ := generatedIDChars_shape lib name.data
  refine ⟨?_, h1, h2, h3, h4⟩
  intro he
  apply h5.2 h
  have : (generatedID lib name).data = "".data := by rw [he]
  exact this

theorem generatedID_wellformed_witness :
    (∃ c ∈ "My Writer!!".data, isAlnum c = true) ∧
      generatedID exampleLib "My Writer!!" ≠ "" ∧
      (∀ c ∈ (generatedID exampleLib "My Writer!!").data, isLowerAlnum c = true ∨ c = '-') ∧
      NoDoubleDash (generatedID exampleLib "My Writer!!").data ∧
      (generatedID exampleLib "My Writer!!").data.head? ≠ some '-' ∧
      (generatedID exampleLib "My Writer!!").data.getLast? ≠ some '-' :=
  ⟨⟨'M', by decide, by decide⟩,
    generatedID_wellformed exampleLib "My Writer!!" ⟨'M', by decide, by decide⟩⟩

/-- C4: the derivation is idempotent.  For every name, in particular for every name with an
alphanumeric character, deriving the identifier of a derived identifier returns it
unchanged. -/
theorem generatedID_idempotent (lib : GoLib) (name : String) :
    generatedID lib (generatedID lib name) = generatedID lib name := by
  obtain ⟨h1, h2, h3, h4, _⟩ := generatedIDChars_shape lib name.data
  unfold generatedID
  rw [generatedIDChars_fixed lib _ h1 h2 h3 h4]

/-- C5: when the fetches decode and the first terminal status, `final`, comes with fetch
number `n + 1`, the loop of Create, given at least `n + 1` iterations, leaves with the status
`final` after exactly `n + 1` rounds, each a status fetch followed by a sleep of 250 ms, so
after exactly `n + 1` status fetches with a sleep between any two of them.  The status a
fetch decodes to is the one `createWriterStatusRes` holds after the body is decoded into
it. -/
theorem pollLoop_leaves_at_first_terminal (client : KbcClient) (path : String)
    (job : StorageJobStatus) (n fuel : Nat) (final : String) (hw : PollsWait client job 0 n)
    (hlast : decodedStatus client job n = some final)
    (hfinal : final = "success" ∨ final = "error") (hfuel : n + 1 ≤ fuel) :
    (∃ res, res.Status = final ∧
        (pollLoop client path fuel 0 "waiting" job).1 = .left final res) ∧
      (pollLoop client path fuel 0 "waiting" job).2 = pollRounds path (n + 1) ∧
      List.count (Event.getFromSyrup path) (pollLoop client path fuel 0 "waiting" job).2 =
        n + 1 := by
  obtain ⟨res, hres, hloop⟩ := pollLoop_reach client path job n fuel final hw hlast hfinal hfuel
  rw [hloop]
  exact ⟨⟨res, hres, rfl⟩, rfl, count_fetch_pollRounds path (n + 1)⟩

theorem pollLoop_leaves_at_first_terminal_witness :
    PollsWait (exampleClient "waiting" ["waiting", "waiting", "success"] "12345")
        { URL := "https://syrup.keboola.com/queue/job/7", Status := "waiting" } 0 2 ∧
      pollLoop (exampleClient "waiting" ["waiting", "waiting", "success"] "12345")
          "queue/job/7" 3 0 "waiting"
          { URL := "https://syrup.keboola.com/queue/job/7", Status := "waiting" } =
        (.left "success" { URL := "https://syrup.keboola.com/queue/job/7", Status := "success" },
          [.getFromSyrup "queue/job/7", .sleep 250, .getFromSyrup "queue/job/7", .sleep 250,
            .getFromSyrup "queue/job/7", .sleep 250]) ∧
      List.count (Event.getFromSyrup "queue/job/7")
          (pollLoop (exampleClient "waiting" ["waiting", "waiting", "success"] "12345")
            "queue/job/7" 3 0 "waiting"
            { URL := "https://syrup.keboola.com/queue/job/7", Status := "waiting" }).2 = 3 := by
  have hw : PollsWait (exampleClient "waiting" ["waiting", "waiting", "success"] "12345")
      { URL := "https://syrup.keboola.com/queue/job/7", Status := "waiting" } 0 2 := by
    intro j hj
    interval_cases j <;> exact ⟨"waiting", rfl, by decide, by decide⟩
  exact ⟨hw, by decide,
    (pollLoop_leaves_at_first_terminal
      (exampleClient "waiting" ["waiting", "waiting", "success"] "12345") "queue/job/7"
      { URL := "https://syrup.keboola.com/queue/job/7", Status := "waiting" } 2 3 "success"
      hw rfl (Or.inl rfl) (by decide)).2.2⟩

/-- C6: a failure of a remote call of the first phase ends Create at once with an error that
is not nil, and the failing call is the last event.  This holds when the job submission
fails, when its response does not decode, and when, after `n` fetches that decode to a
status that is not terminal, fetch number `n + 1` fails or does not decode; in none of the
three runs is the registration endpoint called. -/
theorem create_aborts_on_phase_one_failure (lib : GoLib) (client : KbcClient) (fuel : Nat)
    (d : ResourceData) :
    (hasErrors client.PostToSyrup = true →
        ∃ e, resourceKeboolaGoodDataWriterCreate lib client fuel d =
          { ret := .returned (some e), trace := [submitEvent lib d], d := d }) ∧
      (∀ resp msg, client.PostToSyrup = .response resp →
        hasErrors (CallResult.response resp) = false → resp.decoded = .error msg →
        resourceKeboolaGoodDataWriterCreate lib client fuel d =
          { ret := .returned (some (.decode msg)), trace := [submitEvent lib d], d := d }) ∧
      (∀ job path n, Submitted lib client job path → PollsWait client job 0 n →
        decodedStatus client job n = none → n + 1 ≤ fuel →
        (∃ e, resourceKeboolaGoodDataWriterCreate lib client fuel d =
          { ret := .returned (some e)
            trace := submitEvent lib d :: (pollRounds path n ++ [.getFromSyrup path])
            d := d }) ∧
          ∀ endpoint form, Event.postToStorage endpoint form ∉
            (resourceKeboolaGoodDataWriterCreate lib client fuel d).trace) := by
  refine ⟨?_, ?_, ?_⟩
  · intro he
    obtain ⟨e, hx⟩ := extractError_of_hasErrors _ he
    refine ⟨e, ?_⟩
    unfold resourceKeboolaGoodDataWriterCreate
    simp only [he, hx, if_true]
  · intro resp msg hr he hd
    unfold resourceKeboolaGoodDataWriterCreate
    simp only [hr, he, hd, Bool.false_eq_true, if_false]
  · intro job path n hs hw hlast hfuel
    obtain ⟨e, hloop⟩ := pollLoop_fail client path job n fuel hw hlast hfuel
    have hrun : resourceKeboolaGoodDataWriterCreate lib client fuel d =
        { ret := .returned (some e)
          trace := submitEvent lib d :: (pollRounds path n ++ [.getFromSyrup path])
          d := d } := by
      rw [create_of_submitted lib client fuel d job path hs, hloop]
      rfl
    refine ⟨⟨e, hrun⟩, ?_⟩
    intro endpoint form hmem
    rw [hrun] at hmem
    simp only [List.mem_cons, List.mem_append, List.mem_singleton] at hmem
    rcases hmem with h | h | h
    · simp [submitEvent] at h
    · rcases mem_pollRounds h with h | h <;> simp at h
    · rcases h with h | h
      · simp at h
      · exact absurd h (List.not_mem_nil _)

theorem create_aborts_on_phase_one_failure_witness :
    PollsWait brokenPollClient
        { URL := "https://syrup.keboola.com/queue/job/7", Status := "waiting" } 0 1 ∧
      resourceKeboolaGoodDataWriterCreate exampleLib brokenPollClient 2 exampleData =
        { ret := .returned (some (.transport "connection reset"))
          trace :=
            [submitEvent exampleLib exampleData, .getFromSyrup "queue/job/7", .sleep 250,
              .getFromSyrup "queue/job/7"]
          d := exampleData } ∧
      ∀ endpoint form, Event.postToStorage endpoint form ∉
        (resourceKeboolaGoodDataWriterCreate exampleLib brokenPollClient 2 exampleData).trace := by
  have hw : PollsWait brokenPollClient
      { URL := "https://syrup.keboola.com/queue/job/7", Status := "waiting" } 0 1 := by
    intro j hj
    interval_cases j
    exact ⟨"waiting", rfl, by decide, by decide⟩
  have hs : Submitted exampleLib brokenPollClient
      { URL := "https://syrup.keboola.com/queue/job/7", Status := "waiting" } "queue/job/7" :=
    ⟨_, jobBody "waiting", "/queue/job/7", rfl, rfl, rfl, rfl, rfl, by decide⟩
  exact ⟨hw, by decide,
    ((create_aborts_on_phase_one_failure exampleLib brokenPollClient 2 exampleData).2.2
      _ "queue/job/7" 1 hs hw rfl (by decide)).2⟩

/-- C7: when the job is accepted, the polling ends with `success` at fetch number `n + 1` and
the registration call fails (transport error, response that is not a success, or body that
does not decode), Create returns an error that is not nil, the registration call is its last
event, so no call follows it, `SetId` is not called and the resource data are unchanged. -/
theorem create_registration_failure (lib : GoLib) (client : KbcClient) (fuel : Nat)
    (d : ResourceData) (job : StorageJobStatus) (path : String) (n : Nat)
    (hs : Submitted lib client job path) (hw : PollsWait client job 0 n)
    (hlast : decodedStatus client job n = some "success") (hfuel : n + 1 ≤ fuel)
    (hfail : RegistrationFails client) :
    (∃ e, resourceKeboolaGoodDataWriterCreate lib client fuel d =
        { ret := .returned (some e)
          trace := submitEvent lib d :: (pollRounds path (n + 1) ++ [registerEvent lib d])
          d := d }) ∧
      ∀ id, Event.setId id ∉ (resourceKeboolaGoodDataWriterCreate lib client fuel d).trace := by
  obtain ⟨e, hreg⟩ := registerConfig_fails lib client d
    (submitEvent lib d :: pollRounds path (n + 1)) hfail
  have hrun : resourceKeboolaGoodDataWriterCreate lib client fuel d =
      { ret := .returned (some e)
        trace := submitEvent lib d :: (pollRounds path (n + 1) ++ [registerEvent lib d])
        d := d } := by
    rw [create_reaches_registration lib client fuel d job path n "success" hs hw hlast
      (Or.inl rfl) hfuel, hreg]
    rfl
  refine ⟨⟨e, hrun⟩, ?_⟩
  intro id hmem
  rw [hrun] at hmem
  simp only [List.mem_cons, List.mem_append, List.mem_singleton] at hmem
  rcases hmem with h | h | h
  · simp [submitEvent] at h
  · rcases mem_pollRounds h with h | h <;> simp at h
  · simp [registerEvent] at h

theorem create_registration_failure_witness :
    PollsWait brokenRegistrationClient
        { URL := "https://syrup.keboola.com/queue/job/7", Status := "waiting" } 0 0 ∧
      RegistrationFails brokenRegistrationClient ∧
      resourceKeboolaGoodDataWriterCreate exampleLib brokenRegistrationClient 1 exampleData =
        { ret := .returned (some (.transport "connection reset"))
          trace :=
            [submitEvent exampleLib exampleData, .getFromSyrup "queue/job/7", .sleep 250,
              registerEvent exampleLib exampleData]
          d := exampleData } ∧
      ∀ id, Event.setId id ∉
        (resourceKeboolaGoodDataWriterCreate exampleLib brokenRegistrationClient 1
          exampleData).trace := by
  have hw : PollsWait brokenRegistrationClient
      { URL := "https://syrup.keboola.com/queue/job/7", Status := "waiting" } 0 0 :=
    fun j hj => absurd hj (by omega)
  have hs : Submitted exampleLib brokenRegistrationClient
      { URL := "https://syrup.keboola.com/queue/job/7", Status := "waiting" } "queue/job/7" :=
    ⟨_, jobBody "waiting", "/queue/job/7", rfl, rfl, rfl, rfl, rfl, by decide⟩
  have hf : RegistrationFails brokenRegistrationClient := Or.inl rfl
  exact ⟨hw, hf, by decide,
    (create_registration_failure exampleLib brokenRegistrationClient 1 exampleData _
      "queue/job/7" 0 hs hw rfl (by decide) hf).2⟩

/-- C8: when the job is accepted, the polling reaches `success` at fetch number `n + 1` and
the registration response decodes to the identifier `assigned`, Create returns nil and sets
the resource ID to `assigned`; the identifier derived from the name is the `writerId` of the
job submission and the `configurationId` of the registration form, whose `name` field is the
name as given. -/
theorem create_succeeds (lib : GoLib) (client : KbcClient) (fuel : Nat) (d : ResourceData)
    (job : StorageJobStatus) (path : String) (n : Nat)
    (resp : Response CreateResourceResult) (assigned : String)
    (hs : Submitted lib client job path) (hw : PollsWait client job 0 n)
    (hlast : decodedStatus client job n = some "success") (hfuel : n + 1 ≤ fuel)
    (hr : client.PostToStorage = .response resp)
    (he : hasErrors (CallResult.response resp) = false)
    (hd : resp.decoded = .ok { ID := assigned }) :
    resourceKeboolaGoodDataWriterCreate lib client fuel d =
      { ret := .returned none
        trace :=
          .postToSyrup "gooddata-writer/v2"
              { WriterID := generatedID lib d.name, Description := d.description,
                AuthToken := d.authToken } ::
            (pollRounds path (n + 1) ++
              [.postToStorage "v2/storage/components/gooddata-writer/configs"
                  [("name", d.name), ("description", d.description),
                    ("configurationId", generatedID lib d.name)],
                .setId assigned])
        d := { name := d.name, description := d.description, authToken := d.authToken,
               id := assigned } } := by
  rw [create_reaches_registration lib client fuel d job path n "success" hs hw hlast
    (Or.inl rfl) hfuel, registerConfig_ok lib client d _ resp assigned hr he hd]
  simp [submitEvent, registerEvent]

theorem create_succeeds_witness :
    PollsWait (exampleClient "waiting" ["waiting", "success"] "12345")
        { URL := "https://syrup.keboola.com/queue/job/7", Status := "waiting" } 0 1 ∧
      resourceKeboolaGoodDataWriterCreate exampleLib
          (exampleClient "waiting" ["waiting", "success"] "12345") 2
          { name := "Sales Data", description := "x", authToken := "t", id := "" } =
        { ret := .returned none
          trace :=
            [.postToSyrup "gooddata-writer/v2"
                { WriterID := "sales-data", Description := "x", AuthToken := "t" },
              .getFromSyrup "queue/job/7", .sleep 250, .getFromSyrup "queue/job/7", .sleep 250,
              .postToStorage "v2/storage/components/gooddata-writer/configs"
                [("name", "Sales Data"), ("description", "x"),
                  ("configurationId", "sales-data")],
              .setId "12345"]
          d := { name := "Sales Data", description := "x", authToken := "t", id := "12345" } } := by
  have hw : PollsWait (exampleClient "waiting" ["waiting", "success"] "12345")
      { URL := "https://syrup.keboola.com/queue/job/7", Status := "waiting" } 0 1 := by
    intro j hj
    interval_cases j
    exact ⟨"waiting", rfl, by decide, by decide⟩
  exact ⟨hw,
    (create_succeeds exampleLib (exampleClient "waiting" ["waiting", "success"] "12345") 2
      { name := "Sales Data", description := "x", authToken := "t", id := "" }
      { URL := "https://syrup.keboola.com/queue/job/7", Status := "waiting" } "queue/job/7" 1
      _ "12345" (exampleClient_submitted "waiting" ["waiting", "success"] "12345") hw rfl
      (by decide) rfl rfl rfl).trans rfl⟩

/-- C9, where the code departs from it: two back ends differ only in the status of the
accepted submission, `error` against `waiting`, and answer the first two status fetches with
a body that carries no key.  Decoding such a body into `createWriterStatusRes` keeps the
status of the submission, so the first run leaves the loop after one fetch with the status
`error`, which no status fetch carried, and goes on to the registration, while the second
run fetches three times and ends with the transport error of the third fetch. -/
theorem submission_status_kept_by_silent_polls :
    (silentClient "error").GetFromSyrup = (silentClient "waiting").GetFromSyrup ∧
      (silentClient "error").PostToStorage = (silentClient "waiting").PostToStorage ∧
      pollLoop (silentClient "error") "queue/job/7" 3 0 "waiting"
          { URL := "https://syrup.keboola.com/queue/job/7", Status := "error" } =
        (.left "error" { URL := "https://syrup.keboola.com/queue/job/7", Status := "error" },
          [.getFromSyrup "queue/job/7", .sleep 250]) ∧
      resourceKeboolaGoodDataWriterCreate exampleLib (silentClient "error") 3 exampleData =
        { ret := .returned none
          trace :=
            [submitEvent exampleLib exampleData, .getFromSyrup "queue/job/7", .sleep 250,
              registerEvent exampleLib exampleData, .setId "12345"]
          d := { name := "Sales Data", description := "x", authToken := "t", id := "12345" } } ∧
      resourceKeboolaGoodDataWriterCreate exampleLib (silentClient "waiting") 3 exampleData =
        { ret := .returned (some (.transport "connection reset"))
          trace :=
            [submitEvent exampleLib exampleData, .getFromSyrup "queue/job/7", .sleep 250,
              .getFromSyrup "queue/job/7", .sleep 250, .getFromSyrup "queue/job/7"]
          d := exampleData } ∧
      resourceKeboolaGoodDataWriterCreate exampleLib (silentClient "error") 3 exampleData ≠
        resourceKeboolaGoodDataWriterCreate exampleLib (silentClient "waiting") 3 exampleData :=
  ⟨rfl, rfl, by decide, by decide, by decide, by decide⟩

/-- C9, amended: whatever the status of the accepted submission, Create does not leave the
loop before a status fetch: whenever it returns, and whenever the loop is granted an
iteration, the event after the job submission is a status fetch.  The status of the
submission plays no part when the body of the first status fetch carries the key `status`:
two back ends that accept the job with job states that differ in the status only, and
answer the status fetches and the registration alike, then give the same run of Create. -/
theorem create_fetches_before_leaving_loop (lib : GoLib) (c1 c2 : KbcClient) (fuel : Nat)
    (d : ResourceData) (job1 job2 : StorageJobStatus) (path : String)
    (h1 : Submitted lib c1 job1 path) (h2 : Submitted lib c2 job2 path)
    (hurl : job1.URL = job2.URL)
    (hget : c1.GetFromSyrup = c2.GetFromSyrup) (hreg : c1.PostToStorage = c2.PostToStorage) :
    (carriesStatus (c1.GetFromSyrup 0) = true →
        resourceKeboolaGoodDataWriterCreate lib c1 fuel d =
          resourceKeboolaGoodDataWriterCreate lib c2 fuel d) ∧
      ((resourceKeboolaGoodDataWriterCreate lib c1 fuel d).ret ≠ .polling →
        (resourceKeboolaGoodDataWriterCreate lib c1 fuel d).trace.take 2 =
          [submitEvent lib d, .getFromSyrup path]) ∧
      (1 ≤ fuel →
        (resourceKeboolaGoodDataWriterCreate lib c1 fuel d).trace.take 2 =
          [submitEvent lib d, .getFromSyrup path]) := by
  have hrun1 := create_of_submitted lib c1 fuel d job1 path h1
  have hrun2 := create_of_submitted lib c2 fuel d job2 path h2
  have hfetch : 1 ≤ fuel → (resourceKeboolaGoodDataWriterCreate lib c1 fuel d).trace.take 2 =
      [submitEvent lib d, .getFromSyrup path] := by
    intro hf
    obtain ⟨more, hmore⟩ := pollLoop_first_event c1 path fuel job1 hf
    rw [hrun1]
    rcases hp : pollLoop c1 path fuel 0 "waiting" job1 with ⟨x, events⟩
    rw [hp] at hmore
    simp only at hmore
    subst hmore
    cases x with
    | polling => rfl
    | failed err => rfl
    | left st res =>
      obtain ⟨tail, htail⟩ := registerConfig_trace lib c1 d
        ([submitEvent lib d] ++ Event.getFromSyrup path :: more)
      show (registerConfig lib c1 d
        ([submitEvent lib d] ++ Event.getFromSyrup path :: more)).trace.take 2 = _
      rw [htail]
      rfl
  refine ⟨?_, ?_, hfetch⟩
  · intro hkey
    have hloop : pollLoop c2 path fuel 0 "waiting" job2 =
        pollLoop c1 path fuel 0 "waiting" job1 := by
      rw [← pollLoop_congr c1 c2 path hget fuel 0 "waiting" job2,
        pollLoop_status_overwritten c1 path fuel job1 job2 hurl hkey]
    rw [hrun1, hrun2, hloop]
    rcases pollLoop c1 path fuel 0 "waiting" job1 with ⟨x, events⟩
    cases x with
    | polling => rfl
    | failed err => rfl
    | left st res => exact registerConfig_congr lib c1 c2 d _ hreg
  · intro hret
    apply hfetch
    rcases Nat.eq_zero_or_pos fuel with h0 | hpos
    · exfalso
      apply hret
      subst h0
      rw [hrun1, pollLoop_zero c1 path 0 "waiting" job1 (by decide) (by decide)]
    · exact hpos

theorem create_fetches_before_leaving_loop_witness :
    carriesStatus ((exampleClient "error" ["success"] "12345").GetFromSyrup 0) = true ∧
      resourceKeboolaGoodDataWriterCreate exampleLib (exampleClient "error" ["success"] "12345") 1
          exampleData =
        resourceKeboolaGoodDataWriterCreate exampleLib
          (exampleClient "waiting" ["success"] "12345") 1 exampleData ∧
      (resourceKeboolaGoodDataWriterCreate exampleLib (exampleClient "error" ["success"] "12345")
          1 exampleData).trace.take 2 =
        [submitEvent exampleLib exampleData, .getFromSyrup "queue/job/7"] :=
  ⟨rfl,
    (create_fetches_before_leaving_loop exampleLib (exampleClient "error" ["success"] "12345")
      (exampleClient "waiting" ["success"] "12345") 1 exampleData _ _ "queue/job/7"
      (exampleClient_submitted "error" ["success"] "12345")
      (exampleClient_submitted "waiting" ["success"] "12345") rfl rfl rfl).1 rfl,
    ((create_fetches_before_leaving_loop exampleLib (exampleClient "error" ["success"] "12345")
      (exampleClient "waiting" ["success"] "12345") 1 exampleData _ _ "queue/job/7"
      (exampleClient_submitted "error" ["success"] "12345")
      (exampleClient_submitted "waiting" ["success"] "12345") rfl rfl rfl).2.2 (by decide))⟩

/-- C10: the derived identifier is empty exactly when the name has no character of
`A-Za-z0-9`, as for the empty name, `!!!` and a name of letters outside ASCII; Create has no
guard for it: with such a name its first event is the job submission with an empty
`writerId`. -/
theorem generatedID_empty_iff (lib : GoLib) (name : String) :
    (generatedID lib name = "" ↔ ∀ c ∈ name.data, isAlnum c = false) ∧
      generatedID lib "" = "" ∧ generatedID lib "!!!" = "" ∧ generatedID lib "éü" = "" ∧
      ∀ (client : KbcClient) (fuel : Nat) (description authToken id : String),
        (∀ c ∈ name.data, isAlnum c = false) →
        (resourceKeboolaGoodDataWriterCreate lib client fuel
            { name := name, description := description, authToken := authToken,
              id := id }).trace.head? =
          some (.postToSyrup "gooddata-writer/v2"
            { WriterID := "", Description := description, AuthToken := authToken }) := by
  have hiff : generatedID lib name = "" ↔ ∀ c ∈ name.data, isAlnum c = false := by
    obtain ⟨_, _, _, _, h5⟩ := generatedIDChars_shape lib name.data
    constructor
    · intro he c hc
      by_contra hne
      have hca : isAlnum c = true := by simpa using hne
      apply h5.2 ⟨c, hc, hca⟩
      have : (generatedID lib name).data = "".data := by rw [he]
      exact this
    · intro hall
      have hnil : generatedIDChars lib name.data = [] := by
        by_contra hne
        obtain ⟨c, hc, hca⟩ := h5.1 hne
        rw [hall c hc] at hca
        exact Bool.false_ne_true hca
      unfold generatedID
      rw [hnil]
  refine ⟨hiff, rfl, rfl, rfl, ?_⟩
  intro client fuel description authToken id hall
  obtain ⟨more, hm⟩ := create_trace_head lib client fuel
    { name := name, description := description, authToken := authToken, id := id }
  rw [hm]
  simp only [List.head?_cons, submitEvent, hiff.2 hall]

theorem generatedID_empty_iff_witness :
    (∀ c ∈ "!!!".data, isAlnum c = false) ∧
      (resourceKeboolaGoodDataWriterCreate exampleLib (exampleClient "waiting" ["success"] "12345")
          1 { name := "!!!", description := "x", authToken := "t", id := "" }).trace.head? =
        some (.postToSyrup "gooddata-writer/v2"
          { WriterID := "", Description := "x", AuthToken := "t" }) :=
  ⟨by decide,
    (generatedID_empty_iff exampleLib "!!!").2.2.2.2
      (exampleClient "waiting" ["success"] "12345") 1 "x" "t" "" (by decide)⟩

end Keboola
